import Mathlib

/-!
Shallow embedding of the Git status cache and aggregation layer of eza
(src/fs/feature/git.rs): repository cache construction and deduplication,
the compute-once repository state machine, the status-table aggregation
algorithms for files and directories, and the one-shot subdirectory
summary.  External collaborators (the git2 query engine, the filesystem)
are modelled as explicit environments of pure data and functions.
-/

/-- Filesystem paths, modelled as Rust path components.  An absolute path
begins with the root-marker component, written as the string made of one
slash; all other components are plain names.  Rust Path.starts_with
compares whole components (the root marker included), which this encoding
reproduces with list prefixes. -/
abbrev GPath := List String

/-- Rust Path.starts_with: the second path is a whole-component prefix of
the first. -/
def pathStartsWith (p q : GPath) : Bool :=
  q.isPrefixOf p

/-- Whether a path has a root (Rust Path.is_absolute on unix). -/
def isAbsolute (p : GPath) : Bool :=
  p.head? == some "/"

/-- Rust PathBuf.join: an absolute right-hand side replaces the base. -/
def pathJoin (base p : GPath) : GPath :=
  if isAbsolute p then p else base ++ p

/-- Filesystem environment consumed by reorient: the current directory
(none when current_dir fails) and the canonicalization primitive (none
when canonicalize fails). -/
structure FsEnv where
  cwd : Option GPath
  canon : GPath → Option GPath

/-- Embedding of reorient (unix variant): join the path onto the current
directory (onto the single-component dot path when current_dir fails),
then canonicalize, falling back to the joined path on failure. -/
def reorient (env : FsEnv) (path : GPath) : GPath :=
  let p := match env.cwd with
    | none => pathJoin ["."] path
    | some dir => pathJoin dir path
  match env.canon p with
  | some c => c
  | none => p

/-- Embedding of git2.Status: a bitflags set over a machine word,
modelled as a Nat bitmask. -/
structure Status where
  bits : Nat
deriving DecidableEq

/-- Bitflags union (bitwise or). -/
def Status.union (a b : Status) : Status :=
  ⟨a.bits ||| b.bits⟩

/-- Bitflags contains: every bit of the flag is present in the set. -/
def Status.contains (s f : Status) : Bool :=
  s.bits &&& f.bits == f.bits

/-- Empty flag set. -/
def Status.empty : Status := ⟨0⟩

def Status.INDEX_NEW : Status := ⟨1⟩
def Status.INDEX_MODIFIED : Status := ⟨2⟩
def Status.INDEX_DELETED : Status := ⟨4⟩
def Status.INDEX_RENAMED : Status := ⟨8⟩
def Status.INDEX_TYPECHANGE : Status := ⟨16⟩
def Status.WT_NEW : Status := ⟨128⟩
def Status.WT_MODIFIED : Status := ⟨256⟩
def Status.WT_DELETED : Status := ⟨512⟩
def Status.WT_TYPECHANGE : Status := ⟨1024⟩
def Status.WT_RENAMED : Status := ⟨2048⟩
def Status.IGNORED : Status := ⟨16384⟩
def Status.CONFLICTED : Status := ⟨32768⟩

/-- Modelled from the spec: the display-layer status classification kept
in fields.rs, outside the provided source (decode-table target of the
staged and unstaged classifications). -/
inductive f.GitStatus where
  | NotModified
  | New
  | Modified
  | Deleted
  | Renamed
  | TypeChange
  | Ignored
  | Conflicted
deriving DecidableEq

/-- Modelled from the spec: the pair of independent classifications
returned for one path (fields.rs, outside the provided source). -/
structure f.Git where
  staged : f.GitStatus
  unstaged : f.GitStatus
deriving DecidableEq

/-- Embedding of working_tree_status: first match in priority order over
the working-tree flags, then Ignored, then Conflicted, else NotModified. -/
def working_tree_status (status : Status) : f.GitStatus :=
  if status.contains Status.WT_NEW then .New
  else if status.contains Status.WT_MODIFIED then .Modified
  else if status.contains Status.WT_DELETED then .Deleted
  else if status.contains Status.WT_RENAMED then .Renamed
  else if status.contains Status.WT_TYPECHANGE then .TypeChange
  else if status.contains Status.IGNORED then .Ignored
  else if status.contains Status.CONFLICTED then .Conflicted
  else .NotModified

/-- Embedding of index_status: first match in priority order over the
index flags, else NotModified. -/
def index_status (status : Status) : f.GitStatus :=
  if status.contains Status.INDEX_NEW then .New
  else if status.contains Status.INDEX_MODIFIED then .Modified
  else if status.contains Status.INDEX_DELETED then .Deleted
  else if status.contains Status.INDEX_RENAMED then .Renamed
  else if status.contains Status.INDEX_TYPECHANGE then .TypeChange
  else .NotModified

/-- Status table: the list of (absolute path, raw status flags) pairs of
one repository (struct Git in the source). -/
structure Git where
  statuses : List (GPath × Status)
deriving DecidableEq

/-- Filter predicate of Git.file_status: an entry whose flags equal
exactly IGNORED is kept when the queried path starts with the entry
path; any other entry is kept only on exact path equality. -/
def fileKeep (path : GPath) (e : GPath × Status) : Bool :=
  if e.2 = Status.IGNORED then pathStartsWith path e.1
  else decide (e.1 = path)

/-- Filter predicate of Git.dir_status: an entry whose flags equal
exactly IGNORED is kept when the queried path starts with the entry
path; any other entry is kept when the entry path starts with the
queried path. -/
def dirKeep (path : GPath) (e : GPath × Status) : Bool :=
  if e.2 = Status.IGNORED then pathStartsWith path e.1
  else pathStartsWith e.1 path

/-- Fold of the kept entries into one aggregate flag set (the fold in
file_status and dir_status). -/
def aggregate (l : List (GPath × Status)) : Status :=
  l.foldl (fun a b => a.union b.2) Status.empty

/-- Embedding of Git.file_status. -/
def Git.file_status (g : Git) (env : FsEnv) (file : GPath) : f.Git :=
  let path := reorient env file
  let s := aggregate (g.statuses.filter (fileKeep path))
  ⟨index_status s, working_tree_status s⟩

/-- Embedding of Git.dir_status. -/
def Git.dir_status (g : Git) (env : FsEnv) (dir : GPath) : f.Git :=
  let path := reorient env dir
  let s := aggregate (g.statuses.filter (dirKeep path))
  ⟨index_status s, working_tree_status s⟩

/-- Embedding of Git.status: route by the prefix-lookup (directory mode)
flag. -/
def Git.status (g : Git) (env : FsEnv) (index : GPath) (prefixLookup : Bool) : f.Git :=
  if prefixLookup then g.dir_status env index
  else g.file_status env index

/-- Result of git2 Repository.head as consumed by current_branch: a
successful head carries its optional shorthand name; the error cases are
distinguished the way the source distinguishes them. -/
inductive HeadResult where
  | ok (shorthand : Option String)
  | errUnbornBranch
  | errNotFound
  | errOther
deriving DecidableEq

/-- Model of a git2.Repository handle as consumed by this module: its
optional working directory, the outcome of its full-status walk (none
when the walk errors), and the outcome of its head lookup.  Status
entries are (workdir-relative path, flags) pairs. -/
structure Repository where
  workdir : Option GPath
  rawStatuses : Option (List (GPath × Status))
  head : HeadResult
deriving DecidableEq

/-- Embedding of current_branch: a head error of any kind yields none,
otherwise the shorthand of the head. -/
def current_branch (repo : Repository) : Option String :=
  let head : Option (Option String) :=
    match repo.head with
    | .ok sh => some sh
    | .errUnbornBranch => none
    | .errNotFound => none
    | .errOther => none
  head.bind id

/-- Embedding of get_path_from_status_entry (unix variant: every entry
path decodes). -/
def get_path_from_status_entry (p : GPath) : Option GPath :=
  some p

/-- Embedding of repo_to_statuses: on a successful walk, join every
reported entry path onto the working directory and append the synthetic
ignored entry for the dot-git subdirectory; on a walk error, the table
stays empty. -/
def repo_to_statuses (repo : Repository) (workdir : GPath) : Git :=
  match repo.rawStatuses with
  | some es =>
    let entries := es.filterMap
      (fun e => (get_path_from_status_entry e.1).map (fun p => (pathJoin workdir p, e.2)))
    ⟨entries ++ [(pathJoin workdir [".git"], Status.IGNORED)]⟩
  | none => ⟨[]⟩

/-- Embedding of enum GitContents: the queried state of one repository. -/
inductive GitContents where
  | Before (repo : Repository)
  | Processing
  | After (statuses : Git)
deriving DecidableEq

/-- Rank of a state in the forward order Before, Processing, After. -/
def GitContents.rank : GitContents → Nat
  | .Before _ => 0
  | .Processing => 1
  | .After _ => 2

/-- Embedding of GitContents.inner_repo: extraction succeeds only from
the Before state (the source marks the other cases unreachable). -/
def GitContents.inner_repo : GitContents → Option Repository
  | .Before repo => some repo
  | _ => none

/-- Embedding of struct GitRepo.  The mutex-guarded cell becomes a plain
field threaded explicitly through search. -/
structure GitRepo where
  contents : GitContents
  workdir : GPath
  original_path : GPath
  extra_paths : List GPath
deriving DecidableEq

/-- Embedding of GitRepo.search with the state passed explicitly: the
returned Nat counts invocations of the full-status walk performed by
this call (1 exactly when the state was not yet After).  The call fails
only in the state the source marks unreachable. -/
def GitRepo.search (r : GitRepo) (env : FsEnv) (index : GPath) (prefixLookup : Bool) :
    Option (f.Git × GitRepo × Nat) :=
  match r.contents with
  | .After statuses => some (statuses.status env index prefixLookup, r, 0)
  | c =>
    match c.inner_repo with
    | none => none
    | some repo =>
      let statuses := repo_to_statuses repo r.workdir
      let result := statuses.status env index prefixLookup
      some (result, { r with contents := .After statuses }, 1)

/-- Sequential trace of search calls on one repository (the mutex in the
source serializes them), accumulating results and the total number of
full-status walks. -/
def runSearches (env : FsEnv) (r : GitRepo) : List (GPath × Bool) → Option (List f.Git × GitRepo × Nat)
  | [] => some ([], r, 0)
  | q :: qs =>
    match r.search env q.1 q.2 with
    | none => none
    | some (res, r1, n) =>
      match runSearches env r1 qs with
      | none => none
      | some (results, r2, m) => some (res :: results, r2, n + m)

/-- Embedding of GitRepo.has_workdir. -/
def GitRepo.has_workdir (r : GitRepo) (path : GPath) : Bool :=
  r.workdir == path

/-- Embedding of GitRepo.has_path. -/
def GitRepo.has_path (r : GitRepo) (path : GPath) : Bool :=
  pathStartsWith path r.original_path
    || r.extra_paths.any (fun e => pathStartsWith path e)

/-- Discovery flag sets used by the source: NO_SEARCH with NO_DOTGIT for
the GIT_DIR override, FROM_ENV for candidate paths. -/
inductive OpenFlags where
  | noSearchNoDotgit
  | fromEnv
deriving DecidableEq

/-- Discovery environment: the optional GIT_DIR override (already split
into components) and the git2 open_ext primitive. -/
structure DiscoveryEnv where
  git_dir : Option GPath
  open_ext : GPath → OpenFlags → Option Repository

/-- Embedding of GitRepo.discover: open the repository, then require a
working directory; either failure reports the path back as a miss. -/
def GitRepo.discover (denv : DiscoveryEnv) (path : GPath) (flags : OpenFlags) :
    Except GPath GitRepo :=
  match denv.open_ext path flags with
  | none => .error path
  | some repo =>
    match repo.workdir with
    | some w => .ok ⟨.Before repo, w, path, []⟩
    | none => .error path

/-- Embedding of struct GitCache. -/
structure GitCache where
  repos : List GitRepo
  misses : List GPath

/-- Embedding of GitCache.has_anything_for. -/
def GitCache.has_anything_for (c : GitCache) (index : GPath) : Bool :=
  c.repos.any (fun e => e.has_path index)

/-- Helper for the iter_mut().find step of from_iter: push the original
path of a newly discovered repository onto the extra paths of the first
cached repository with the same working directory, if any. -/
def addExtraToFirst : List GitRepo → GPath → GPath → Option (List GitRepo)
  | [], _, _ => none
  | e :: rest, w, orig =>
    if e.has_workdir w then
      some ({ e with extra_paths := e.extra_paths ++ [orig] } :: rest)
    else
      (addExtraToFirst rest w orig).map (fun l => e :: l)

/-- One iteration of the candidate-path loop of GitCache.from_iter,
also accumulating the list of paths on which discovery was attempted. -/
def fromIterStep (denv : DiscoveryEnv) (acc : GitCache × List GPath) (path : GPath) :
    GitCache × List GPath :=
  let git := acc.1
  let attempts := acc.2
  if git.misses.contains path then
    (git, attempts)
  else if git.repos.any (fun e => e.has_path path) then
    (git, attempts)
  else
    match GitRepo.discover denv path .fromEnv with
    | .ok r =>
      match addExtraToFirst git.repos r.workdir r.original_path with
      | some repos2 => ({ git with repos := repos2 }, attempts ++ [path])
      | none => ({ git with repos := git.repos ++ [r] }, attempts ++ [path])
    | .error miss =>
      ({ git with misses := git.misses ++ [miss] }, attempts ++ [path])

/-- Embedding of GitCache.from_iter: honor the GIT_DIR override first,
then fold the candidate paths through the loop body.  The second
component is the instrumented list of discovery attempts. -/
def GitCache.from_iter (denv : DiscoveryEnv) (paths : List GPath) : GitCache × List GPath :=
  let start : GitCache × List GPath :=
    match denv.git_dir with
    | none => (⟨[], []⟩, [])
    | some p =>
      match GitRepo.discover denv p .noSearchNoDotgit with
      | .ok repo => (⟨[repo], []⟩, [p])
      | .error miss => (⟨[], [miss]⟩, [p])
  paths.foldl (fromIterStep denv) start

/-- Modelled from the spec: the subdirectory summary classification kept
in fields.rs, outside the provided source (Clean, Dirty, NoRepository). -/
inductive f.SubdirGitRepoStatus where
  | GitClean
  | GitDirty
  | NoRepo
deriving DecidableEq

/-- Modelled from the spec: the subdirectory summary record kept in
fields.rs, outside the provided source (optional status, optional
branch). -/
structure f.SubdirGitRepo where
  status : Option f.SubdirGitRepoStatus
  branch : Option String
deriving DecidableEq

/-- Environment of SubdirGitRepo.from_path: the filesystem environment
for reorient and the exact-path (no upward search) git2 open
primitive. -/
structure SubdirEnv where
  fs : FsEnv
  open_repo : GPath → Option Repository

/-- Embedding of SubdirGitRepo.from_path.  Both the open failure and the
walk-error fall-through reach the closing expression of the source,
which reports NoRepo (when status was requested) and no branch. -/
def f.SubdirGitRepo.from_path (senv : SubdirEnv) (dir : GPath) (status : Bool) :
    f.SubdirGitRepo :=
  let path := reorient senv.fs dir
  match senv.open_repo path with
  | some repo =>
    let branch := current_branch repo
    if !status then ⟨none, branch⟩
    else
      match repo.rawStatuses with
      | some es =>
        if es.any (fun s => decide (s.2 ≠ Status.IGNORED)) then ⟨some .GitDirty, branch⟩
        else ⟨some .GitClean, branch⟩
      | none =>
        ⟨if status then some .NoRepo else none, none⟩
  | none => ⟨if status then some .NoRepo else none, none⟩

/-! Helper lemmas about flag sets and aggregation. -/

theorem bits_lor_land_self (a b : Nat) : (a ||| b) &&& b = b := by
  apply Nat.eq_of_testBit_eq
  intro i
  simp only [Nat.testBit_land, Nat.testBit_lor]
  cases a.testBit i <;> cases b.testBit i <;> rfl

theorem contains_union_right (a s : Status) : (a.union s).contains s = true := by
  simp only [Status.contains, Status.union, beq_iff_eq]
  exact bits_lor_land_self a.bits s.bits

theorem contains_union_of_left (a b g : Status) (h : a.contains g = true) :
    (a.union b).contains g = true := by
  simp only [Status.contains, Status.union, beq_iff_eq] at h ⊢
  apply Nat.eq_of_testBit_eq
  intro i
  have h2 := congrArg (fun n => n.testBit i) h
  simp only [Nat.testBit_land, Nat.testBit_lor] at h2 ⊢
  revert h2
  cases a.bits.testBit i <;> cases b.bits.testBit i <;> cases g.bits.testBit i <;>
    intro h2 <;> first | rfl | exact h2

theorem foldl_union_contains_init (l : List (GPath × Status)) (i g : Status)
    (h : i.contains g = true) :
    (l.foldl (fun a b => a.union b.2) i).contains g = true := by
  induction l generalizing i with
  | nil => exact h
  | cons x xs ih =>
    exact ih (i.union x.2) (contains_union_of_left i x.2 g h)

theorem aggregate_contains_of_mem (l : List (GPath × Status)) (e : GPath × Status)
    (h : e ∈ l) : (aggregate l).contains e.2 = true := by
  unfold aggregate
  generalize Status.empty = i
  induction l generalizing i with
  | nil => cases h
  | cons x xs ih =>
    cases h with
    | head =>
      exact foldl_union_contains_init xs (i.union e.2) e.2 (contains_union_right i e.2)
    | tail _ hm => exact ih hm (i.union x.2)

/-! Concrete fixtures used by the claim theorems. -/

/-- Concrete filesystem environment: current directory is the root and
canonicalization always fails, so reorient keeps absolute paths as they
are. -/
def env0 : FsEnv := ⟨some ["/"], fun _ => none⟩

/-- Concrete table with one working-tree-modified file below a
directory. -/
def gC2 : Git := ⟨[(["/", "repo", "a", "b.txt"], Status.WT_MODIFIED)]⟩

/-- Concrete table with a single entry whose flags are exactly IGNORED
at the repository root. -/
def gC3 : Git := ⟨[(["/", "repo"], Status.IGNORED)]⟩

/-- Concrete table whose single entry combines IGNORED with a
working-tree modification. -/
def gC9 : Git := ⟨[(["/", "repo"], Status.IGNORED.union Status.WT_MODIFIED)]⟩

/-- Any entry kept by the file filter is either exactly ignored or sits
exactly at the queried path. -/
theorem fileKeep_imp (path : GPath) (e : GPath × Status) (h : fileKeep path e = true) :
    (decide (e.2 = Status.IGNORED) || decide (e.1 = path)) = true := by
  unfold fileKeep at h
  by_cases hi : e.2 = Status.IGNORED
  · simp [hi]
  · simp only [if_neg hi] at h
    simp [h]

/-- Erasing every entry that is neither exactly ignored nor exactly at
the queried path leaves the file filter output unchanged. -/
theorem filter_fileKeep_restrict (l : List (GPath × Status)) (path : GPath) :
    (l.filter (fun e => decide (e.2 = Status.IGNORED) || decide (e.1 = path))).filter
        (fileKeep path) =
      l.filter (fileKeep path) := by
  rw [List.filter_filter]
  apply List.filter_congr
  intro e _
  cases h : fileKeep path e
  · rfl
  · simp [fileKeep_imp path e h]

/-- C2: dir_status aggregates child-to-parent (every non-ignored entry
nested under the queried directory contributes its flags to the
aggregate), while file_status takes non-ignored entries only on exact
path equality (erasing every non-ignored entry at a different path
leaves its answer unchanged); on the single entry (/repo/a/b.txt,
WT_MODIFIED), dir_status of /repo/a reports unstaged Modified while
file_status of /repo/a reports unstaged NotModified. -/
theorem c2_aggregation_asymmetry :
    (∀ (g : Git) (env : FsEnv) (dir : GPath) (e : GPath × Status),
      e ∈ g.statuses → e.2 ≠ Status.IGNORED →
      pathStartsWith e.1 (reorient env dir) = true →
      (aggregate (g.statuses.filter (dirKeep (reorient env dir)))).contains e.2 = true)
    ∧ (∀ (g : Git) (env : FsEnv) (file : GPath),
      g.file_status env file =
        Git.file_status
          ⟨g.statuses.filter
            (fun e => decide (e.2 = Status.IGNORED) || decide (e.1 = reorient env file))⟩
          env file)
    ∧ gC2.dir_status env0 ["/", "repo", "a"] =
        ⟨f.GitStatus.NotModified, f.GitStatus.Modified⟩
    ∧ gC2.file_status env0 ["/", "repo", "a"] =
        ⟨f.GitStatus.NotModified, f.GitStatus.NotModified⟩ := by
  refine ⟨?_, ?_, by decide, by decide⟩
  · intro g env dir e hm hni hsw
    apply aggregate_contains_of_mem
    rw [List.mem_filter]
    refine ⟨hm, ?_⟩
    unfold dirKeep
    rw [if_neg hni]
    exact hsw
  · intro g env file
    have h := filter_fileKeep_restrict g.statuses (reorient env file)
    simp only [Git.file_status]
    rw [h]

/-- Witness for C2, instantiating the child-to-parent conjunct on the
concrete table. -/
theorem c2_witness :
    (aggregate (gC2.statuses.filter (dirKeep (reorient env0 ["/", "repo", "a"])))).contains
      Status.WT_MODIFIED = true :=
  c2_aggregation_asymmetry.1 gC2 env0 ["/", "repo", "a"]
    (["/", "repo", "a", "b.txt"], Status.WT_MODIFIED) (by decide) (by decide) (by decide)

/-- C3: an entry whose flags are exactly IGNORED contributes to both the
file and the directory aggregate whenever the queried path equals or is
nested under the entry path; on the single entry (/repo, IGNORED),
file_status of /repo/build/x and dir_status of /repo/build both report
unstaged Ignored. -/
theorem c3_ignore_propagates_down :
    (∀ (g : Git) (env : FsEnv) (q : GPath) (e : GPath × Status),
      e ∈ g.statuses → e.2 = Status.IGNORED →
      pathStartsWith (reorient env q) e.1 = true →
      (aggregate (g.statuses.filter (fileKeep (reorient env q)))).contains e.2 = true ∧
      (aggregate (g.statuses.filter (dirKeep (reorient env q)))).contains e.2 = true)
    ∧ (gC3.file_status env0 ["/", "repo", "build", "x"]).unstaged = f.GitStatus.Ignored
    ∧ (gC3.dir_status env0 ["/", "repo", "build"]).unstaged = f.GitStatus.Ignored := by
  refine ⟨?_, by decide, by decide⟩
  intro g env q e hm hi hsw
  constructor
  · apply aggregate_contains_of_mem
    rw [List.mem_filter]
    refine ⟨hm, ?_⟩
    unfold fileKeep
    rw [if_pos hi]
    exact hsw
  · apply aggregate_contains_of_mem
    rw [List.mem_filter]
    refine ⟨hm, ?_⟩
    unfold dirKeep
    rw [if_pos hi]
    exact hsw

/-- Witness for C3, instantiating the downward-propagation conjunct on
the concrete table. -/
theorem c3_witness :
    (aggregate (gC3.statuses.filter
      (fileKeep (reorient env0 ["/", "repo", "build", "x"])))).contains Status.IGNORED = true :=
  (c3_ignore_propagates_down.1 gC3 env0 ["/", "repo", "build", "x"]
    (["/", "repo"], Status.IGNORED) (by decide) (by decide) (by decide)).1

/-- C9: the downward ignore-propagation branch of both filters fires
only when the entry flags are exactly IGNORED; an entry combining
IGNORED with WT_MODIFIED is matched by the non-ignored rule (exact
equality for files, entry-under-query for directories) and does not
propagate to descendants. -/
theorem c9_ignored_branch_exact_flags :
    (∀ (path : GPath) (e : GPath × Status), e.2 ≠ Status.IGNORED →
      fileKeep path e = decide (e.1 = path) ∧ dirKeep path e = pathStartsWith e.1 path)
    ∧ gC9.file_status env0 ["/", "repo", "x"] =
        ⟨f.GitStatus.NotModified, f.GitStatus.NotModified⟩
    ∧ gC9.dir_status env0 ["/", "repo", "sub"] =
        ⟨f.GitStatus.NotModified, f.GitStatus.NotModified⟩
    ∧ (gC9.file_status env0 ["/", "repo"]).unstaged = f.GitStatus.Modified := by
  refine ⟨?_, by decide, by decide, by decide⟩
  intro path e h
  constructor
  · unfold fileKeep
    rw [if_neg h]
  · unfold dirKeep
    rw [if_neg h]

/-- Witness for C9, instantiating the exact-flags conjunct on the
combined-flag entry. -/
theorem c9_witness :
    fileKeep ["/", "repo", "x"] (["/", "repo"], Status.IGNORED.union Status.WT_MODIFIED) =
      decide ((["/", "repo"] : GPath) = ["/", "repo", "x"]) :=
  (c9_ignored_branch_exact_flags.1 ["/", "repo", "x"]
    (["/", "repo"], Status.IGNORED.union Status.WT_MODIFIED) (by decide)).1

/-- C6: the staged classification picks the first match in the order
New, Modified, Deleted, Renamed, TypeChanged, defaulting to NotModified;
it never reports Ignored or Conflicted; flags combining index New and
index Modified classify as New. -/
theorem c6_staged_priority : ∀ s : Status,
    (index_status s ≠ f.GitStatus.Ignored ∧ index_status s ≠ f.GitStatus.Conflicted)
    ∧ (s.contains Status.INDEX_NEW = true → index_status s = f.GitStatus.New)
    ∧ (s.contains Status.INDEX_NEW = false → s.contains Status.INDEX_MODIFIED = true →
        index_status s = f.GitStatus.Modified)
    ∧ (s.contains Status.INDEX_NEW = false → s.contains Status.INDEX_MODIFIED = false →
        s.contains Status.INDEX_DELETED = true → index_status s = f.GitStatus.Deleted)
    ∧ (s.contains Status.INDEX_NEW = false → s.contains Status.INDEX_MODIFIED = false →
        s.contains Status.INDEX_DELETED = false → s.contains Status.INDEX_RENAMED = true →
        index_status s = f.GitStatus.Renamed)
    ∧ (s.contains Status.INDEX_NEW = false → s.contains Status.INDEX_MODIFIED = false →
        s.contains Status.INDEX_DELETED = false → s.contains Status.INDEX_RENAMED = false →
        s.contains Status.INDEX_TYPECHANGE = true →
        index_status s = f.GitStatus.TypeChange)
    ∧ (s.contains Status.INDEX_NEW = false → s.contains Status.INDEX_MODIFIED = false →
        s.contains Status.INDEX_DELETED = false → s.contains Status.INDEX_RENAMED = false →
        s.contains Status.INDEX_TYPECHANGE = false →
        index_status s = f.GitStatus.NotModified)
    ∧ index_status (Status.INDEX_NEW.union Status.INDEX_MODIFIED) = f.GitStatus.New := by
  intro s
  refine ⟨⟨?_, ?_⟩, ?_, ?_, ?_, ?_, ?_, ?_, by decide⟩
  · unfold index_status
    repeat' split
    all_goals decide
  · unfold index_status
    repeat' split
    all_goals decide
  · intro h1
    simp [index_status, h1]
  · intro h1 h2
    simp [index_status, h1, h2]
  · intro h1 h2 h3
    simp [index_status, h1, h2, h3]
  · intro h1 h2 h3 h4
    simp [index_status, h1, h2, h3, h4]
  · intro h1 h2 h3 h4 h5
    simp [index_status, h1, h2, h3, h4, h5]
  · intro h1 h2 h3 h4 h5
    simp [index_status, h1, h2, h3, h4, h5]

/-- Witness for C6, instantiating the second-priority conjunct at the
flag set holding exactly index Modified. -/
theorem c6_witness : index_status ⟨2⟩ = f.GitStatus.Modified :=
  (c6_staged_priority ⟨2⟩).2.2.1 (by decide) (by decide)

/-- Status entries pass through get_path_from_status_entry unchanged on
unix, so the table construction is a plain map over the walk results. -/
theorem filterMap_status_entries (w : GPath) (es : List (GPath × Status)) :
    es.filterMap
        (fun e => (get_path_from_status_entry e.1).map (fun p => (pathJoin w p, e.2))) =
      es.map (fun e => (pathJoin w e.1, e.2)) := by
  have : (fun (e : GPath × Status) =>
      (get_path_from_status_entry e.1).map (fun p => (pathJoin w p, e.2))) =
      (some ∘ fun e => (pathJoin w e.1, e.2)) := by
    funext e
    rfl
  rw [this, List.filterMap_eq_map]

/-- Shape of the table after a successful walk: the joined entries plus
the synthetic dot-git entry. -/
theorem repo_to_statuses_some (repo : Repository) (w : GPath) (es : List (GPath × Status))
    (h : repo.rawStatuses = some es) :
    repo_to_statuses repo w =
      ⟨es.map (fun e => (pathJoin w e.1, e.2)) ++ [(pathJoin w [".git"], Status.IGNORED)]⟩ := by
  unfold repo_to_statuses
  rw [h]
  simp [filterMap_status_entries]

/-- Concrete repository whose full-status walk fails. -/
def repoC4err : Repository := ⟨some ["/", "repo"], none, .errOther⟩

/-- Counterexample to C4 as stated: when the walk itself fails the table
is empty, carries no synthetic dot-git entry, and the dot-git path
reports unstaged NotModified rather than Ignored. -/
theorem c4_counterexample :
    (repo_to_statuses repoC4err ["/", "repo"]).statuses = []
    ∧ Git.file_status (repo_to_statuses repoC4err ["/", "repo"]) env0
        ["/", "repo", ".git"] =
      ⟨f.GitStatus.NotModified, f.GitStatus.NotModified⟩ := by
  exact ⟨by decide, by decide⟩

/-- C4 (amended): whenever the full-status walk succeeds, the table
contains the synthetic dot-git entry, and the dot-git path reports
unstaged Ignored and staged NotModified even when no raw entry covers
that path; when the walk fails the table is empty (see the
counterexample). -/
theorem c4_dotgit_synthetic_entry :
    ∀ (repo : Repository) (w : GPath) (es : List (GPath × Status)) (env : FsEnv),
      repo.rawStatuses = some es →
      reorient env (pathJoin w [".git"]) = pathJoin w [".git"] →
      (∀ e ∈ es, fileKeep (pathJoin w [".git"]) (pathJoin w e.1, e.2) = false) →
      (pathJoin w [".git"], Status.IGNORED) ∈ (repo_to_statuses repo w).statuses
      ∧ Git.file_status (repo_to_statuses repo w) env (pathJoin w [".git"]) =
          ⟨f.GitStatus.NotModified, f.GitStatus.Ignored⟩ := by
  intro repo w es env h hre hnone
  rw [repo_to_statuses_some repo w es h]
  constructor
  · exact List.mem_append_right _ (List.mem_singleton.mpr rfl)
  · have hf : ((es.map (fun e => (pathJoin w e.1, e.2))
        ++ [(pathJoin w [".git"], Status.IGNORED)]).filter
          (fileKeep (pathJoin w [".git"]))) = [(pathJoin w [".git"], Status.IGNORED)] := by
      rw [List.filter_append]
      have h1 : (es.map (fun e => (pathJoin w e.1, e.2))).filter
          (fileKeep (pathJoin w [".git"])) = [] := by
        rw [List.filter_eq_nil_iff]
        intro a ha
        rw [List.mem_map] at ha
        obtain ⟨e, he, rfl⟩ := ha
        simp [hnone e he]
      have h2 : ([(pathJoin w [".git"], Status.IGNORED)]).filter
          (fileKeep (pathJoin w [".git"])) = [(pathJoin w [".git"], Status.IGNORED)] := by
        simp [fileKeep, pathStartsWith, List.isPrefixOf_iff_prefix]
      rw [h1, h2]
      rfl
    have hagg : aggregate [(pathJoin w [".git"], Status.IGNORED)] = Status.IGNORED := by
      simp [aggregate, Status.union, Status.empty, Status.IGNORED]
    simp only [Git.file_status, hre, hf, hagg]
    decide

/-- Witness for the amended C4, on a successful walk whose raw results
never mention the dot-git directory. -/
theorem c4_witness :
    (pathJoin ["/", "repo"] [".git"], Status.IGNORED) ∈
      (repo_to_statuses ⟨some ["/", "repo"], some [], .ok none⟩ ["/", "repo"]).statuses
    ∧ Git.file_status (repo_to_statuses ⟨some ["/", "repo"], some [], .ok none⟩ ["/", "repo"])
        env0 (pathJoin ["/", "repo"] [".git"]) =
      ⟨f.GitStatus.NotModified, f.GitStatus.Ignored⟩ :=
  c4_dotgit_synthetic_entry ⟨some ["/", "repo"], some [], .ok none⟩ ["/", "repo"] [] env0
    (by decide) (by decide) (by decide)

/-- Concrete repository for the subdirectory summary whose branch lookup
succeeds but whose full-status walk fails. -/
def repoC5 : Repository := ⟨some ["/", "repo"], none, .ok (some "main")⟩

/-- Concrete environment whose open primitive always yields that
repository. -/
def senvC5 : SubdirEnv := ⟨env0, fun _ => some repoC5⟩

/-- Counterexample to C5 as stated: with want-status true, a successful
open and branch lookup followed by a walk error returns the NoRepo
fallback with an absent branch, although the branch determined before
the walk was present. -/
theorem c5_counterexample :
    f.SubdirGitRepo.from_path senvC5 ["/", "repo"] true =
      ⟨some f.SubdirGitRepoStatus.NoRepo, none⟩
    ∧ current_branch repoC5 = some "main" := by
  exact ⟨by decide, by decide⟩

/-- C5 (amended): when opening succeeds, want-status is true and the
full-status walk fails, the call falls through to the no-repository
fallback, returning status NoRepo and discarding the branch determined
before the walk. -/
theorem c5_walk_error_fallback :
    ∀ (senv : SubdirEnv) (dir : GPath) (repo : Repository),
      senv.open_repo (reorient senv.fs dir) = some repo →
      repo.rawStatuses = none →
      f.SubdirGitRepo.from_path senv dir true =
        ⟨some f.SubdirGitRepoStatus.NoRepo, none⟩ := by
  intro senv dir repo hopen hwalk
  simp [f.SubdirGitRepo.from_path, hopen, hwalk]

/-- Witness for the amended C5 on the concrete environment. -/
theorem c5_witness :
    f.SubdirGitRepo.from_path senvC5 ["/", "repo"] true =
      ⟨some f.SubdirGitRepoStatus.NoRepo, none⟩ :=
  c5_walk_error_fallback senvC5 ["/", "repo"] repoC5 (by decide) (by decide)

/-- Searches on a repository already in the After state answer from the
stored table, leave the state unchanged and perform no walk. -/
theorem runSearches_from_after (env : FsEnv) (g : Git) (w op : GPath) (ep : List GPath)
    (qs : List (GPath × Bool)) :
    runSearches env ⟨.After g, w, op, ep⟩ qs =
      some (qs.map (fun q => g.status env q.1 q.2), ⟨.After g, w, op, ep⟩, 0) := by
  induction qs with
  | nil => rfl
  | cons q qs ih => simp [runSearches, GitRepo.search, ih]

/-- C1: each successful search moves the state forward in rank and ends
in the After state (the transient Processing state is never the result
of a call), performs at most one walk, and answers from the stored table
without walking once the state is After; a trace of calls started in the
Before state performs exactly one walk on its first call and every later
answer comes from the frozen table. -/
theorem c1_compute_once_state_machine :
    (∀ (env : FsEnv) (r : GitRepo) (index : GPath) (pl : Bool) (res : f.Git)
        (r1 : GitRepo) (n : Nat),
      r.search env index pl = some (res, r1, n) →
      r.contents.rank ≤ r1.contents.rank ∧ n ≤ 1 ∧ (∃ g, r1.contents = .After g) ∧
        (∀ g, r.contents = .After g → r1 = r ∧ n = 0 ∧ res = g.status env index pl))
    ∧ (∀ (env : FsEnv) (g : Git) (r : GitRepo) (qs : List (GPath × Bool)),
      r.contents = .After g →
      runSearches env r qs = some (qs.map (fun q => g.status env q.1 q.2), r, 0))
    ∧ (∀ (env : FsEnv) (repo : Repository) (w op : GPath) (ep : List GPath)
        (q : GPath × Bool) (qs : List (GPath × Bool)),
      runSearches env ⟨.Before repo, w, op, ep⟩ (q :: qs) =
        some ((q :: qs).map (fun x => (repo_to_statuses repo w).status env x.1 x.2),
          ⟨.After (repo_to_statuses repo w), w, op, ep⟩, 1)) := by
  refine ⟨?_, ?_, ?_⟩
  · intro env r index pl res r1 n hs
    obtain ⟨c, w, op, ep⟩ := r
    cases c with
    | Before repo =>
      simp only [GitRepo.search, GitContents.inner_repo, Option.some.injEq,
        Prod.mk.injEq] at hs
      obtain ⟨h1, h2, h3⟩ := hs
      subst h2
      subst h3
      refine ⟨by simp [GitContents.rank], by omega, ⟨_, rfl⟩, ?_⟩
      intro g hg
      exact absurd hg (by simp)
    | Processing =>
      simp [GitRepo.search, GitContents.inner_repo] at hs
    | After g =>
      simp only [GitRepo.search, Option.some.injEq, Prod.mk.injEq] at hs
      obtain ⟨h1, h2, h3⟩ := hs
      subst h2
      subst h3
      refine ⟨Nat.le_refl _, by omega, ⟨g, rfl⟩, ?_⟩
      intro g2 hg2
      have hgg : g = g2 := GitContents.After.inj hg2
      subst hgg
      exact ⟨rfl, rfl, h1.symm⟩
  · intro env g r qs h
    obtain ⟨c, w, op, ep⟩ := r
    have : c = .After g := h
    subst this
    exact runSearches_from_after env g w op ep qs
  · intro env repo w op ep q qs
    simp [runSearches, GitRepo.search, GitContents.inner_repo, runSearches_from_after]

/-- Concrete repository in the After state with an empty table. -/
def rC1After : GitRepo := ⟨.After ⟨[]⟩, ["/", "repo"], ["/", "repo"], []⟩

/-- Witness for C1, instantiating the answered-from-table conjunct on a
concrete After-state repository. -/
theorem c1_witness :
    runSearches env0 rC1After [(["/", "repo"], false)] =
      some ([Git.status ⟨[]⟩ env0 ["/", "repo"] false], rC1After, 0) :=
  c1_compute_once_state_machine.2.1 env0 ⟨[]⟩ rC1After [(["/", "repo"], false)] rfl

/-- Failure of addExtraToFirst means no cached repository has the given
working directory. -/
theorem addExtraToFirst_none (rs : List GitRepo) (w orig : GPath)
    (h : addExtraToFirst rs w orig = none) : ∀ e ∈ rs, e.workdir ≠ w := by
  induction rs with
  | nil =>
    intro e he
    cases he
  | cons x xs ih =>
    intro e he
    unfold addExtraToFirst at h
    by_cases hw : x.has_workdir w
    · rw [if_pos hw] at h
      cases h
    · rw [if_neg hw] at h
      rw [Option.map_eq_none'] at h
      cases he with
      | head =>
        intro heq
        apply hw
        simp [GitRepo.has_workdir, heq]
      | tail _ hm => exact ih h e hm

/-- Success of addExtraToFirst changes only extra_paths: the sequence of
working directories is untouched. -/
theorem addExtraToFirst_some_map (rs : List GitRepo) (w orig : GPath) (rs2 : List GitRepo)
    (h : addExtraToFirst rs w orig = some rs2) :
    rs2.map GitRepo.workdir = rs.map GitRepo.workdir := by
  induction rs generalizing rs2 with
  | nil => cases h
  | cons x xs ih =>
    unfold addExtraToFirst at h
    by_cases hw : x.has_workdir w
    · rw [if_pos hw] at h
      have h2 := Option.some.inj h
      subst h2
      rfl
    · rw [if_neg hw] at h
      cases hx : addExtraToFirst xs w orig with
      | none =>
        rw [hx] at h
        cases h
      | some l =>
        rw [hx] at h
        simp only [Option.map_some', Option.some.injEq] at h
        subst h
        simp [ih l hx]

/-- One iteration of the cache-construction loop preserves distinctness
of the cached working directories. -/
theorem fromIterStep_preserves_nodup (denv : DiscoveryEnv) (git : GitCache)
    (attempts : List GPath) (path : GPath)
    (h : git.repos.Pairwise (fun a b => a.workdir ≠ b.workdir)) :
    ((fromIterStep denv (git, attempts) path).1.repos).Pairwise
      (fun a b => a.workdir ≠ b.workdir) := by
  unfold fromIterStep
  by_cases h1 : git.misses.contains path = true
  · rw [if_pos h1]
    exact h
  · rw [if_neg h1]
    by_cases h2 : git.repos.any (fun e => e.has_path path) = true
    · rw [if_pos h2]
      exact h
    · rw [if_neg h2]
      cases hd : GitRepo.discover denv path .fromEnv with
      | error m =>
        simp only [hd]
        exact h
      | ok r =>
        simp only [hd]
        cases ha : addExtraToFirst git.repos r.workdir r.original_path with
        | some rs2 =>
          simp only [ha]
          have hm := addExtraToFirst_some_map git.repos r.workdir r.original_path rs2 ha
          have hp : (git.repos.map GitRepo.workdir).Pairwise (fun a b => a ≠ b) :=
            List.pairwise_map.mpr h
          rw [← hm] at hp
          exact List.pairwise_map.mp hp
        | none =>
          simp only [ha]
          rw [List.pairwise_append]
          refine ⟨h, List.pairwise_singleton _ _, ?_⟩
          intro a hain b hbin
          rw [List.mem_singleton] at hbin
          rw [hbin]
          exact addExtraToFirst_none git.repos r.workdir r.original_path ha a hain

/-- Folding the loop body over any batch of candidate paths preserves
distinctness of the cached working directories. -/
theorem foldl_fromIterStep_nodup (denv : DiscoveryEnv) (ps : List GPath)
    (acc : GitCache × List GPath)
    (h : acc.1.repos.Pairwise (fun a b => a.workdir ≠ b.workdir)) :
    ((ps.foldl (fromIterStep denv) acc).1.repos).Pairwise
      (fun a b => a.workdir ≠ b.workdir) := by
  induction ps generalizing acc with
  | nil => exact h
  | cons p ps ih =>
    exact ih (fromIterStep denv acc p)
      (fromIterStep_preserves_nodup denv acc.1 acc.2 p h)

/-- Concrete repository handle shared by two discovery answers. -/
def repoC7 : Repository := ⟨some ["/", "repo"], some [], .ok none⟩

/-- Concrete discovery environment resolving two sibling candidate paths
to the same working directory. -/
def denvC7 : DiscoveryEnv :=
  ⟨none, fun p _ =>
    if p = ["/", "repo", "sub1"] ∨ p = ["/", "repo", "sub2"] then some repoC7 else none⟩

/-- C7: after construction no two cached repositories share a working
directory, and two candidate paths resolving to the same working
directory yield a single entry that claims both input paths, the second
one through extra_paths. -/
theorem c7_workdir_dedup :
    (∀ (denv : DiscoveryEnv) (paths : List GPath),
      ((GitCache.from_iter denv paths).1.repos).Pairwise
        (fun a b => a.workdir ≠ b.workdir))
    ∧ (GitCache.from_iter denvC7
        [["/", "repo", "sub1"], ["/", "repo", "sub2"]]).1.repos.length = 1
    ∧ (GitCache.from_iter denvC7
        [["/", "repo", "sub1"], ["/", "repo", "sub2"]]).1.has_anything_for
        ["/", "repo", "sub1"] = true
    ∧ (GitCache.from_iter denvC7
        [["/", "repo", "sub1"], ["/", "repo", "sub2"]]).1.has_anything_for
        ["/", "repo", "sub2"] = true
    ∧ (GitCache.from_iter denvC7
        [["/", "repo", "sub1"], ["/", "repo", "sub2"]]).1.repos.map GitRepo.extra_paths =
      [[["/", "repo", "sub2"]]] := by
  refine ⟨?_, by decide, by decide, by decide, by decide⟩
  intro denv paths
  unfold GitCache.from_iter
  apply foldl_fromIterStep_nodup
  cases hg : denv.git_dir with
  | none =>
    simp only [hg]
    exact List.Pairwise.nil
  | some p =>
    simp only [hg]
    cases hd : GitRepo.discover denv p .noSearchNoDotgit with
    | ok repo =>
      simp only [hd]
      exact List.pairwise_singleton _ _
    | error miss =>
      simp only [hd]
      exact List.Pairwise.nil

/-- Concrete discovery environment in which every discovery attempt
fails. -/
def denvC8 : DiscoveryEnv := ⟨none, fun _ _ => none⟩

/-- C8: a candidate path equal to a recorded miss is skipped with no
discovery attempt; a candidate not covered by the miss list nor by any
claimed-path set is attempted, even when it is strictly nested under a
previously missed path; concretely the batch (p, p, p/sub) against an
always-failing discovery attempts exactly p and then p/sub. -/
theorem c8_miss_exact_match :
    (∀ (denv : DiscoveryEnv) (git : GitCache) (attempts : List GPath) (path : GPath),
      git.misses.contains path = true →
      fromIterStep denv (git, attempts) path = (git, attempts))
    ∧ (∀ (denv : DiscoveryEnv) (git : GitCache) (attempts : List GPath) (path : GPath),
      git.misses.contains path = false →
      git.repos.any (fun e => e.has_path path) = false →
      (fromIterStep denv (git, attempts) path).2 = attempts ++ [path])
    ∧ (GitCache.from_iter denvC8
        [["/", "repo"], ["/", "repo"], ["/", "repo", "sub"]]).2 =
      [["/", "repo"], ["/", "repo", "sub"]] := by
  refine ⟨?_, ?_, by decide⟩
  · intro denv git attempts path h
    unfold fromIterStep
    rw [if_pos h]
  · intro denv git attempts path h1 h2
    have h1n : ¬(git.misses.contains path = true) := by
      rw [h1]
      simp
    have h2n : ¬(git.repos.any (fun e => e.has_path path) = true) := by
      rw [h2]
      simp
    unfold fromIterStep
    rw [if_neg h1n, if_neg h2n]
    cases hd : GitRepo.discover denv path .fromEnv with
    | error m => simp only [hd]
    | ok r =>
      simp only [hd]
      cases ha : addExtraToFirst git.repos r.workdir r.original_path with
      | some rs2 => simp only [ha]
      | none => simp only [ha]

/-- Witness for C8, skipping a candidate equal to a recorded miss. -/
theorem c8_witness :
    fromIterStep denvC8 (⟨[], [["/", "repo"]]⟩, [["/", "repo"]]) ["/", "repo"] =
      (⟨[], [["/", "repo"]]⟩, [["/", "repo"]]) :=
  c8_miss_exact_match.1 denvC8 ⟨[], [["/", "repo"]]⟩ [["/", "repo"]] ["/", "repo"] (by decide)

/-- Concrete repository entry claiming the path /repo/sub. -/
def rC10 : GitRepo := ⟨.After ⟨[]⟩, ["/", "repo"], ["/", "repo", "sub"], []⟩

/-- Concrete cache holding only that entry. -/
def cC10 : GitCache := ⟨[rC10], []⟩

/-- Concrete table with one modified file under /repo/sub. -/
def gC10 : Git := ⟨[(["/", "repo", "sub", "f.txt"], Status.WT_MODIFIED)]⟩

/-- C10: all equals-or-is-nested-under tests are whole-component prefix
tests: every path starts with itself and with each of its ancestors, a
sibling whose last component merely extends the name (sub-extra versus
sub) does not start with it even though the rendered strings are in the
string-prefix relation, and has_path, has_anything_for and the
dir_status filter all answer through this component test. -/
theorem c10_component_prefix_semantics :
    (∀ p : GPath, pathStartsWith p p = true)
    ∧ (∀ (anc rest : GPath), pathStartsWith (anc ++ rest) anc = true)
    ∧ pathStartsWith ["/", "repo", "sub-extra"] ["/", "repo", "sub"] = false
    ∧ ("/repo/sub".data.isPrefixOf "/repo/sub-extra".data) = true
    ∧ (∀ (r : GitRepo) (p : GPath),
        r.has_path p =
          (pathStartsWith p r.original_path
            || r.extra_paths.any (fun e => pathStartsWith p e)))
    ∧ (∀ (c : GitCache) (p : GPath),
        c.has_anything_for p = c.repos.any (fun e => e.has_path p))
    ∧ rC10.has_path ["/", "repo", "sub-extra"] = false
    ∧ rC10.has_path ["/", "repo", "sub", "x"] = true
    ∧ cC10.has_anything_for ["/", "repo", "sub-extra"] = false
    ∧ gC10.dir_status env0 ["/", "repo", "sub"] =
        ⟨f.GitStatus.NotModified, f.GitStatus.Modified⟩
    ∧ gC10.dir_status env0 ["/", "repo", "sub-extra"] =
        ⟨f.GitStatus.NotModified, f.GitStatus.NotModified⟩ := by
  refine ⟨?_, ?_, by decide, by decide, fun r p => rfl, fun c p => rfl,
    by decide, by decide, by decide, by decide, by decide⟩
  · intro p
    simp [pathStartsWith, List.isPrefixOf_iff_prefix]
  · intro anc rest
    simp [pathStartsWith, List.isPrefixOf_iff_prefix]
